import Mathlib

/-!
Shallow embedding of the jobot job-application plugin.

The embedding covers the persistent entity store (`JobStore` in
`src/db/store.ts`, provided here as operations on a `Store` value), the
email classification and matching engine
(`src/services/email-monitor.ts`), and the statistics/timeline
aggregator.  SQLite rows become lists of structures, `Date.now()`
becomes an explicit `now : Int` parameter (milliseconds), and
`randomUUID` becomes a fresh-id counter `nextId` (ids are only ever
compared for equality).  JavaScript string primitives are modelled by
executable char-list functions so that every definition evaluates
inside the kernel.
-/

namespace Jobot

/-! ### String primitives (JavaScript / SQLite counterparts) -/

/-- Decimal digit character. -/
def digitChar (d : Nat) : Char := Char.ofNat (48 + d)

/-- Decimal digits of a natural number, fuelled structural recursion. -/
def natToChars : Nat → Nat → List Char
  | 0, _ => []
  | fuel + 1, n => if n < 10 then [digitChar n] else natToChars fuel (n / 10) ++ [digitChar (n % 10)]

/-- Decimal representation of a natural number. -/
def natStr (n : Nat) : List Char := natToChars (n + 1) n

/-- Zero-padded two-digit field, as produced by SQLite `date()`. -/
def pad2 (n : Nat) : List Char := if n < 10 then '0' :: natStr n else natStr n

/-- Zero-padded four-digit year field, as produced by SQLite `date()`. -/
def pad4 (n : Nat) : List Char :=
  if n < 10 then '0' :: '0' :: '0' :: natStr n
  else if n < 100 then '0' :: '0' :: natStr n
  else if n < 1000 then '0' :: natStr n
  else natStr n

/-- Bytewise (code-point) lexicographic order on char lists: the order
SQLite's BINARY collation uses for `ORDER BY date`, and the order
`localeCompare` produces on `YYYY-MM-DD` strings. -/
def charListLe : List Char → List Char → Bool
  | [], _ => true
  | _ :: _, [] => false
  | a :: as, b :: bs =>
    if a.toNat < b.toNat then true
    else if b.toNat < a.toNat then false
    else charListLe as bs

/-- String order used for the timeline's ascending-by-date sort. -/
def strLe (a b : String) : Bool := charListLe a.data b.data

/-- Helper for `strIncludes`: does `h` contain `n` as a contiguous run? -/
def listIncludes (n : List Char) : List Char → Bool
  | [] => n.isEmpty
  | c :: t => n.isPrefixOf (c :: t) || listIncludes n t

/-- JavaScript `haystack.includes(needle)` (substring containment). -/
def strIncludes (h n : String) : Bool := listIncludes n.data h.data

/-- Split a char list at every character satisfying `p`; the result is
never empty.  This matches JavaScript `split` on a single-character
separator; for the `split(/\s+/)` use the only difference is extra
empty-string fragments on runs of separators, which the engine's
`word.length > 3` guard discards anyway. -/
def splitP (p : Char → Bool) : List Char → List (List Char)
  | [] => [[]]
  | c :: rest =>
    match splitP p rest with
    | [] => [[]]
    | w :: ws => if p c then [] :: w :: ws else (c :: w) :: ws

/-- String-valued split. -/
def strSplit (p : Char → Bool) (s : String) : List String :=
  (splitP p s.data).map (fun w => ⟨w⟩)

/-- JavaScript `toLowerCase` restricted to ASCII, the only case the
keyword lists and company names exercise. -/
def lowerStr (s : String) : String := ⟨s.data.map Char.toLower⟩

/-! ### Calendar-date bucketing (SQLite `date(t, 'unixepoch')`) -/

/-- Civil date from days since the Unix epoch (proleptic Gregorian,
Howard Hinnant's algorithm); all intermediate quantities are
non-negative naturals except the era. -/
def civilFromDays (z : Int) : Int × Nat × Nat :=
  let z' := z + 719468
  let era : Int := z' / 146097
  let doe : Nat := (z' - era * 146097).toNat
  let yoe : Nat := (doe - doe / 1460 + doe / 36524 - doe / 146096) / 365
  let y : Int := (yoe : Int) + era * 400
  let doy : Nat := doe - (365 * yoe + yoe / 4 - yoe / 100)
  let mp : Nat := (5 * doy + 2) / 153
  let d : Nat := doy - (153 * mp + 2) / 5 + 1
  let m : Nat := if mp < 10 then mp + 3 else mp - 9
  (if m ≤ 2 then y + 1 else y, m, d)

/-- UTC calendar date string `YYYY-MM-DD` of a millisecond timestamp:
the bucket key `date(t / 1000, 'unixepoch')` of `getTimeline`.  The
stored timestamps come from `Date.now()` and are non-negative, where
Euclidean and SQLite's truncating division agree. -/
def dateOf (ms : Int) : String :=
  let secs := ms / 1000
  let days := secs / 86400
  let c := civilFromDays days
  ⟨(if c.1 < 0 then '-' :: pad4 (-c.1).toNat else pad4 c.1.toNat) ++
    '-' :: pad2 c.2.1 ++ '-' :: pad2 c.2.2⟩

/-! ### Data model (`src/types.ts`, `src/db/schema.ts`) -/

inductive JobStatus where
  | new | reviewing | approved | rejected | applied | archived
deriving DecidableEq

inductive ApplicationStatus where
  | pending | submitted | viewed | rejected | interview | offer | withdrawn | closed
deriving DecidableEq

inductive EmailThreadStatus where
  | active | awaitingResponse | responded | closed
deriving DecidableEq

structure Job where
  id : Nat
  company : String
  title : String
  status : JobStatus
  discoveredAt : Int
  description : Option String := none
deriving DecidableEq

structure Application where
  id : Nat
  jobId : Nat
  status : ApplicationStatus
  appliedAt : Option Int
  notes : Option String
  lastActivityAt : Int
  createdAt : Int
  updatedAt : Int
deriving DecidableEq

structure EmailThread where
  id : Nat
  applicationId : Nat
  gmailThreadId : Option String
  subject : String
  fromEmail : String
  lastMessageAt : Int
  status : EmailThreadStatus
  messageCount : Nat
deriving DecidableEq

structure Resume where
  id : Nat
  name : String
  is_default : Bool
  createdAt : Int
  updatedAt : Int
deriving DecidableEq

structure ApplicationHistoryRecord where
  id : Nat
  applicationId : Nat
  old_status : ApplicationStatus
  new_status : ApplicationStatus
  changedAt : Int
  notes : Option String
deriving DecidableEq

/-- The persistent state: one list per table plus the fresh-id counter
standing in for `randomUUID`. -/
structure Store where
  jobs : List Job
  applications : List Application
  emailThreads : List EmailThread
  resumes : List Resume
  history : List ApplicationHistoryRecord
  nextId : Nat
deriving DecidableEq

/-! ### Entity store operations (`JobStore`, src/db/store.ts) -/

/-- `createJob`: insert with generated id, `discoveredAt = now`,
`status = "new"`. -/
def createJob (s : Store) (company title : String) (description : Option String) (now : Int) : Store :=
  { s with
    jobs := s.jobs ++ [{ id := s.nextId, company := company, title := title,
                         status := JobStatus.new, discoveredAt := now, description := description }],
    nextId := s.nextId + 1 }

/-- `getJob`: first row with the id, or `none`. -/
def getJob (s : Store) (id : Nat) : Option Job :=
  s.jobs.find? (fun j => decide (j.id = id))

/-- `updateJobStatus`: `UPDATE jobs SET status = ? WHERE id = ?`. -/
def updateJobStatus (s : Store) (id : Nat) (status : JobStatus) : Store :=
  { s with jobs := s.jobs.map (fun j => if j.id = id then { j with status := status } else j) }

/-- Partial update record for `updateJob` (the serialized-blob columns
`requirements`, `tech_stack`, `metadata` follow the same pattern as
`description` and are not carried by the embedding). -/
structure JobUpdates where
  status : Option JobStatus := none
  description : Option String := none

/-- `updateJob`: early return when no SET clause, else update every row
with the id. -/
def updateJob (s : Store) (id : Nat) (u : JobUpdates) : Store :=
  if u.status.isNone ∧ u.description.isNone then s
  else
    { s with jobs := s.jobs.map (fun j =>
        if j.id = id then
          { j with status := u.status.getD j.status,
                   description := match u.description with
                     | some d => some d
                     | none => j.description }
        else j) }

/-- `createApplication`: insert with generated id, `status = "pending"`,
`applied_at = NULL` and all three timestamps set to `now`. -/
def createApplication (s : Store) (jobId : Nat) (notes : Option String) (now : Int) : Store :=
  { s with
    applications := s.applications ++
      [{ id := s.nextId, jobId := jobId, status := ApplicationStatus.pending,
         appliedAt := none, notes := notes, lastActivityAt := now,
         createdAt := now, updatedAt := now }],
    nextId := s.nextId + 1 }

/-- `getApplication`: first row with the id, or `none`. -/
def getApplication (s : Store) (id : Nat) : Option Application :=
  s.applications.find? (fun a => decide (a.id = id))

/-- `ORDER BY updated_at DESC` (stable; SQLite leaves ties unspecified). -/
def sortByUpdatedAtDesc (l : List Application) : List Application :=
  List.insertionSort (fun a b => b.updatedAt ≤ a.updatedAt) l

/-- `listApplications`: optional status filter, `ORDER BY updated_at
DESC LIMIT ? OFFSET ?` with the store's default limit 100, offset 0. -/
def listApplications (s : Store) (status : Option ApplicationStatus)
    (limit : Nat := 100) (offset : Nat := 0) : List Application :=
  let rows := match status with
    | some st => s.applications.filter (fun a => decide (a.status = st))
    | none => s.applications
  ((sortByUpdatedAtDesc rows).drop offset).take limit

/-- Row effect of the `UPDATE applications SET status = ?,
last_activity_at = ?, updated_at = ?, applied_at = COALESCE(applied_at, ?)`
statement, where the bound value for `applied_at` is `now` when the new
status is `"submitted"` and `NULL` otherwise. -/
def applyStatusUpdate (status : ApplicationStatus) (now : Int) (a : Application) : Application :=
  { a with
    status := status, lastActivityAt := now, updatedAt := now,
    appliedAt := match a.appliedAt with
      | some t => some t
      | none => if status = ApplicationStatus.submitted then some now else none }

/-- `updateApplicationStatus`: silent no-op when `getApplication` finds
nothing; otherwise runs the row update on every row with the id and
appends one history record whose `old_status` is the looked-up row's
status. -/
def updateApplicationStatus (s : Store) (id : Nat) (status : ApplicationStatus)
    (notes : Option String) (now : Int) : Store :=
  match getApplication s id with
  | none => s
  | some app =>
    { s with
      applications := s.applications.map
        (fun a => if a.id = id then applyStatusUpdate status now a else a),
      history := s.history ++
        [{ id := s.nextId, applicationId := id, old_status := app.status,
           new_status := status, changedAt := now, notes := notes }],
      nextId := s.nextId + 1 }

/-- `createEmailThread`: insert with generated id, `last_message_at = now`,
`status = "active"`, `message_count = 1`. -/
def createEmailThread (s : Store) (applicationId : Nat) (gmailThreadId : Option String)
    (subject fromEmail : String) (now : Int) : Store :=
  { s with
    emailThreads := s.emailThreads ++
      [{ id := s.nextId, applicationId := applicationId, gmailThreadId := gmailThreadId,
         subject := subject, fromEmail := fromEmail, lastMessageAt := now,
         status := EmailThreadStatus.active, messageCount := 1 }],
    nextId := s.nextId + 1 }

/-- `getEmailThreadByGmailId`: `WHERE gmail_thread_id = ?`; a SQL `=`
never matches a NULL column. -/
def getEmailThreadByGmailId (s : Store) (gmailThreadId : String) : Option EmailThread :=
  s.emailThreads.find? (fun t => decide (t.gmailThreadId = some gmailThreadId))

/-- Partial update record for `updateEmailThread`. -/
structure ThreadUpdates where
  status : Option EmailThreadStatus := none
  messageCount : Option Nat := none
  lastMessageAt : Option Int := none

/-- `updateEmailThread`: early return when no SET clause, else update
every row with the id. -/
def updateEmailThread (s : Store) (id : Nat) (u : ThreadUpdates) : Store :=
  if u.status.isNone ∧ u.messageCount.isNone ∧ u.lastMessageAt.isNone then s
  else
    { s with emailThreads := s.emailThreads.map (fun t =>
        if t.id = id then
          { t with status := u.status.getD t.status,
                   messageCount := u.messageCount.getD t.messageCount,
                   lastMessageAt := u.lastMessageAt.getD t.lastMessageAt }
        else t) }

/-- `createResume`: when the new resume is flagged default, first
`UPDATE resumes SET is_default = 0`, then insert. -/
def createResume (s : Store) (name : String) (isDefault : Bool) (now : Int) : Store :=
  let cleared := if isDefault then s.resumes.map (fun r => { r with is_default := false }) else s.resumes
  { s with
    resumes := cleared ++ [{ id := s.nextId, name := name, is_default := isDefault,
                             createdAt := now, updatedAt := now }],
    nextId := s.nextId + 1 }

/-- `setDefaultResume`: `UPDATE resumes SET is_default = 0` followed by
`UPDATE resumes SET is_default = 1 WHERE id = ?`. -/
def setDefaultResume (s : Store) (id : Nat) : Store :=
  let cleared := s.resumes.map (fun r => { r with is_default := false })
  { s with resumes := cleared.map (fun r => if r.id = id then { r with is_default := true } else r) }

/-- `deleteResume`: `DELETE FROM resumes WHERE id = ?`. -/
def deleteResume (s : Store) (id : Nat) : Store :=
  { s with resumes := s.resumes.filter (fun r => decide (¬ r.id = id)) }

/-! ### Email classification and matching engine (src/services/email-monitor.ts) -/

def REJECTION_KEYWORDS : List String :=
  ["unfortunately", "regret to inform", "not moving forward", "decided not to proceed",
   "other candidates", "position has been filled", "not selected", "not a fit",
   "pursued other", "decided to move forward with"]

def INTERVIEW_KEYWORDS : List String :=
  ["schedule an interview", "interview invitation", "would like to speak", "set up a call",
   "phone screen", "technical interview", "on-site interview", "video interview",
   "meet with", "next steps", "availability"]

def OFFER_KEYWORDS : List String :=
  ["pleased to offer", "offer letter", "job offer", "employment offer",
   "compensation package", "start date", "we would like to extend"]

inductive EmailResponseType where
  | rejection | interview | offer | generic
deriving DecidableEq

/-- Interpolation of an `EmailResponseType` into the notes string. -/
def EmailResponseType.text : EmailResponseType → String
  | .rejection => "rejection"
  | .interview => "interview"
  | .offer => "offer"
  | .generic => "generic"

structure EmailData where
  fromAddr : String
  subject : String
  body : String
  gmailThreadId : Option String := none
deriving DecidableEq

structure MatchResult where
  applicationId : Nat
  jobId : Nat
  currentStatus : ApplicationStatus
deriving DecidableEq

/-- The sender-domain fragment used by the matcher:
`fromLower.split("@")[1]?.split(".")[0]` (undefined when the sender has
no `@`). -/
def senderDomainOf (fromLower : String) : Option String :=
  ((strSplit (fun c => c = '@') fromLower)[1]?).map
    (fun d => (strSplit (fun c => c = '.') d).headD "")

/-- The per-candidate test of `matchEmailToApplication`: some
whitespace-separated word of the lower-cased company name, longer than
3 characters, occurs in the lower-cased sender (or in the sender-domain
fragment before the first dot) or in the lower-cased subject. -/
def emailMatchesJob (email : EmailData) (job : Job) : Bool :=
  let companyLower := lowerStr job.company
  let fromLower := lowerStr email.fromAddr
  let subjectLower := lowerStr email.subject
  let senderDomain := senderDomainOf fromLower
  let companyWords := strSplit (fun c => c.isWhitespace) companyLower
  let matchesSender := companyWords.any (fun word =>
    decide (word.length > 3) &&
      (strIncludes fromLower word || (senderDomain.map (fun sd => strIncludes sd word)).getD false))
  let matchesSubject := companyWords.any (fun word =>
    decide (word.length > 3) && strIncludes subjectLower word)
  matchesSender || matchesSubject

/-- The loop body of `matchEmailToApplication`: scan the candidates in
order, skip candidates whose Job does not resolve, return the first
match. -/
def findMatch (s : Store) (email : EmailData) : List Application → Option MatchResult
  | [] => none
  | app :: rest =>
    match getJob s app.jobId with
    | none => findMatch s email rest
    | some job =>
      if emailMatchesJob email job then
        some { applicationId := app.id, jobId := app.jobId, currentStatus := app.status }
      else findMatch s email rest

/-- `matchEmailToApplication`: candidates are
`listApplications({status:"submitted"})` followed by
`listApplications({status:"interview"})` (each with the default
limit 100), first match wins. -/
def matchEmailToApplication (s : Store) (email : EmailData) : Option MatchResult :=
  let applications := listApplications s (some ApplicationStatus.submitted)
  let interviewApps := listApplications s (some ApplicationStatus.interview)
  findMatch s email (applications ++ interviewApps)

/-- The scanned text of `classifyEmailResponse`:
`` `${email.subject} ${email.body}`.toLowerCase() ``. -/
def emailContent (email : EmailData) : String :=
  lowerStr (email.subject ++ " " ++ email.body)

/-- `classifyEmailResponse`: lower-cased `subject ++ " " ++ body`
scanned against the keyword sets, offer first, then interview, then
rejection, else generic. -/
def classifyEmailResponse (email : EmailData) : EmailResponseType :=
  if OFFER_KEYWORDS.any (fun kw => strIncludes (emailContent email) kw) then
    EmailResponseType.offer
  else if INTERVIEW_KEYWORDS.any (fun kw => strIncludes (emailContent email) kw) then
    EmailResponseType.interview
  else if REJECTION_KEYWORDS.any (fun kw => strIncludes (emailContent email) kw) then
    EmailResponseType.rejection
  else EmailResponseType.generic

/-- `responseTypeToStatus`: target status for a classification, `none`
when no transition applies. -/
def responseTypeToStatus (responseType : EmailResponseType)
    (currentStatus : ApplicationStatus) : Option ApplicationStatus :=
  match responseType with
  | .offer => some ApplicationStatus.offer
  | .interview =>
    if currentStatus ≠ ApplicationStatus.interview ∧ currentStatus ≠ ApplicationStatus.offer then
      some ApplicationStatus.interview
    else none
  | .rejection => some ApplicationStatus.rejected
  | .generic =>
    if currentStatus = ApplicationStatus.submitted then some ApplicationStatus.viewed
    else none

/-- The create-or-update email-thread block at the end of
`processEmailNotification`. -/
def upsertEmailThread (s1 : Store) (application : MatchResult) (email : EmailData)
    (responseType : EmailResponseType) (now : Int) : Store :=
  let existingThread := email.gmailThreadId.bind (fun gid => getEmailThreadByGmailId s1 gid)
  match existingThread with
  | some t =>
    updateEmailThread s1 t.id
      { lastMessageAt := some now,
        messageCount := some (t.messageCount + 1),
        status := some (if responseType = EmailResponseType.interview then
          EmailThreadStatus.awaitingResponse else EmailThreadStatus.active) }
  | none =>
    createEmailThread s1 application.applicationId email.gmailThreadId email.subject
      email.fromAddr now

/-- `processEmailNotification`: match, classify, conditionally update
the application status, then upsert the email thread.  The notification
branch only logs and is omitted. -/
def processEmailNotification (s : Store) (email : EmailData) (now : Int) : Store :=
  match matchEmailToApplication s email with
  | none => s
  | some application =>
    let responseType := classifyEmailResponse email
    let newStatus := responseTypeToStatus responseType application.currentStatus
    let s1 := match newStatus with
      | some ns =>
        if ns ≠ application.currentStatus then
          updateApplicationStatus s application.applicationId ns
            (some ("Email response classified as: " ++ responseType.text)) now
        else s
      | none => s
    upsertEmailThread s1 application email responseType now

/-! ### Statistics aggregator (`getStats`, `getTimeline`, `formatStats`) -/

structure JobStats where
  totalJobs : Nat
  newJobs : Nat
  appliedJobs : Nat
  pendingApplications : Nat
  interviewsScheduled : Nat
  offersReceived : Nat
  rejections : Nat
deriving DecidableEq

/-- `getStats`: the seven scalar counts (the by-source and by-status
maps are not needed by any claim). -/
def getStats (s : Store) : JobStats :=
  { totalJobs := s.jobs.length,
    newJobs := (s.jobs.filter (fun j => decide (j.status = JobStatus.new))).length,
    appliedJobs := (s.jobs.filter (fun j => decide (j.status = JobStatus.applied))).length,
    pendingApplications :=
      (s.applications.filter (fun a => decide (a.status = ApplicationStatus.pending))).length,
    interviewsScheduled :=
      (s.applications.filter (fun a => decide (a.status = ApplicationStatus.interview))).length,
    offersReceived :=
      (s.applications.filter (fun a => decide (a.status = ApplicationStatus.offer))).length,
    rejections :=
      (s.applications.filter (fun a => decide (a.status = ApplicationStatus.rejected))).length }

/-- The response-rate figure of `formatStats` in `job-track.ts`: only
printed when `stats.appliedJobs > 0`, and then equal to
`(interviews + offers + rejections) / appliedJobs * 100` (the
`toFixed(1)` decimal rendering is presentation and not modelled). -/
def formatStatsResponseRate (stats : JobStats) : Option ℚ :=
  if stats.appliedJobs > 0 then
    some (((stats.interviewsScheduled + stats.offersReceived + stats.rejections : ℚ) /
      (stats.appliedJobs : ℚ)) * 100)
  else none

/-- Composition reported by the `stats` action. -/
def reportedResponseRate (s : Store) : Option ℚ :=
  formatStatsResponseRate (getStats s)

/-- Modelled from the claim's words, for comparison with the code: rate
`(interviews + offers + rejections) / submitted` over the count of
Applications whose status is `"submitted"`, with no rate when that
denominator is zero. -/
def claimResponseRate (s : Store) : Option ℚ :=
  let submitted := (s.applications.filter (fun a => decide (a.status = ApplicationStatus.submitted))).length
  let stats := getStats s
  if submitted > 0 then
    some (((stats.interviewsScheduled + stats.offersReceived + stats.rejections : ℚ) /
      (submitted : ℚ)) * 100)
  else none

structure TimelineEntry where
  date : String
  jobsDiscovered : Nat
  applicationsSubmitted : Nat
  responsesReceived : Nat
deriving DecidableEq

/-- One SQL `SELECT date(t/1000,'unixepoch'), COUNT(*) ... GROUP BY
date ORDER BY date` over a list of millisecond timestamps. -/
def groupByDate (ts : List Int) : List (String × Nat) :=
  (List.insertionSort (fun a b => strLe a b = true) (ts.map dateOf).dedup).map
    (fun d => (d, (ts.filter (fun t => decide (dateOf t = d))).length))

/-- Loop body of the `Map`-building merge of `getTimeline`: an
applications row either overwrites the counter of an existing date or
appends a fresh entry with `jobsDiscovered = 0`. -/
def mergeStep (acc : List TimelineEntry) (p : String × Nat) : List TimelineEntry :=
  if acc.any (fun e => decide (e.date = p.1)) then
    acc.map (fun e => if e.date = p.1 then { e with applicationsSubmitted := p.2 } else e)
  else acc ++ [{ date := p.1, jobsDiscovered := 0, applicationsSubmitted := p.2,
                 responsesReceived := 0 }]

/-- The `Map`-building loop of `getTimeline`: entries from the jobs
group-by are seeded with `applicationsSubmitted = 0`, then the
applications rows are merged in by date key. -/
def mergeTimeline (jobsPerDay appsPerDay : List (String × Nat)) : List TimelineEntry :=
  appsPerDay.foldl mergeStep
    (jobsPerDay.map (fun p =>
      { date := p.1, jobsDiscovered := p.2, applicationsSubmitted := 0,
        responsesReceived := 0 }))

/-- `getTimeline`: the window cutoff `startTime = now - days*24*60*60*1000`
(written out at both uses), the two group-bys, the merge, and the final
ascending sort by date string. -/
def getTimeline (s : Store) (now : Int) (days : Int := 30) : List TimelineEntry :=
  List.insertionSort (fun a b => strLe a.date b.date = true)
    (mergeTimeline
      (groupByDate ((s.jobs.filter
        (fun j => decide (now - days * 24 * 60 * 60 * 1000 ≤ j.discoveredAt))).map
        (fun j => j.discoveredAt)))
      (groupByDate ((s.applications.filterMap (fun a => a.appliedAt)).filter
        (fun t => decide (now - days * 24 * 60 * 60 * 1000 ≤ t)))))

/-! ### Derived notions used by the claim statements -/

/-- Association-list lookup with default 0: the counter a date key
carries in one of the group-by results (0 when the date is absent). -/
def lookupD (l : List (String × Nat)) (d : String) : Nat :=
  ((l.find? (fun p => decide (p.1 = d))).map (fun p => p.2)).getD 0

/-- Jobs discovered inside the window on the given UTC calendar date. -/
def jobsDiscoveredOn (s : Store) (startTime : Int) (d : String) : Nat :=
  ((s.jobs.filter (fun j => decide (startTime ≤ j.discoveredAt))).filter
    (fun j => decide (dateOf j.discoveredAt = d))).length

/-- Applications submitted (non-null `applied_at`) inside the window on
the given UTC calendar date. -/
def appsSubmittedOn (s : Store) (startTime : Int) (d : String) : Nat :=
  (((s.applications.filterMap (fun a => a.appliedAt)).filter
    (fun t => decide (startTime ≤ t))).filter (fun t => decide (dateOf t = d))).length

/-- Modelled from the claim's transition table, for comparison with the
code: the status an application with the given current status ends up
in after an email of the given classification. -/
def specTransition (ty : EmailResponseType) (current : ApplicationStatus) : ApplicationStatus :=
  match ty with
  | .offer => ApplicationStatus.offer
  | .interview =>
    if current = ApplicationStatus.interview ∨ current = ApplicationStatus.offer then current
    else ApplicationStatus.interview
  | .rejection => ApplicationStatus.rejected
  | .generic =>
    if current = ApplicationStatus.submitted then ApplicationStatus.viewed else current

/-- Modelled from the claim's words, for comparison with the code: a
candidate matches when some whitespace-separated word of its Job's
company name longer than 3 characters is a (case-insensitive) substring
of the sender-domain fragment before the first dot, of the full sender
address, or of the subject. -/
def claimMatches (email : EmailData) (job : Job) : Prop :=
  ∃ w ∈ strSplit (fun c => c.isWhitespace) (lowerStr job.company),
    w.length > 3 ∧
    ((∃ d, senderDomainOf (lowerStr email.fromAddr) = some d ∧ strIncludes d w = true) ∨
      strIncludes (lowerStr email.fromAddr) w = true ∨
      strIncludes (lowerStr email.subject) w = true)

instance (email : EmailData) (job : Job) : Decidable (claimMatches email job) := by
  unfold claimMatches
  infer_instance

/-- Claim-side candidate predicate: the candidate's Job resolves and
matches the email. -/
def candidateMatches (s : Store) (email : EmailData) (app : Application) : Bool :=
  match getJob s app.jobId with
  | none => false
  | some job => decide (claimMatches email job)

/-- One `updateApplicationStatus` call of a sequential history. -/
structure UpdateOp where
  id : Nat
  status : ApplicationStatus
  notes : Option String
  now : Int
deriving DecidableEq

/-- Replay a sequence of `updateApplicationStatus` calls. -/
def runUpdates (s : Store) (ops : List UpdateOp) : Store :=
  ops.foldl (fun st op => updateApplicationStatus st op.id op.status op.notes op.now) s

/-- Timestamp of the first call of the sequence that submits the given
application, if any. -/
def firstSubmittedAt (appId : Nat) (ops : List UpdateOp) : Option Int :=
  (ops.find? (fun op => decide (op.id = appId ∧ op.status = ApplicationStatus.submitted))).map
    (fun op => op.now)

/-- One resume-mutating call of a sequential history. -/
inductive ResumeOp where
  | create (name : String) (isDefault : Bool) (now : Int)
  | setDefault (id : Nat)
deriving DecidableEq

def applyResumeOp (s : Store) : ResumeOp → Store
  | .create name isDefault now => createResume s name isDefault now
  | .setDefault id => setDefaultResume s id

/-- Number of resumes flagged as default. -/
def defaultCount (s : Store) : Nat := (s.resumes.filter (fun r => r.is_default)).length

/-! ### Concrete inputs for witnesses and counterexamples -/

def emptyStore : Store :=
  { jobs := [], applications := [], emailThreads := [], resumes := [], history := [], nextId := 0 }

def exJobAcme : Job :=
  { id := 0, company := "Acme Corp", title := "Engineer", status := JobStatus.applied,
    discoveredAt := 0 }

def exAppAcme : Application :=
  { id := 1, jobId := 0, status := ApplicationStatus.submitted, appliedAt := some 50,
    notes := none, lastActivityAt := 50, createdAt := 40, updatedAt := 50 }

def exStoreAcme : Store :=
  { jobs := [exJobAcme], applications := [exAppAcme], emailThreads := [], resumes := [],
    history := [], nextId := 2 }

def exEmailNextSteps : EmailData :=
  { fromAddr := "hr@acmecorp.com", subject := "Next steps for your application",
    body := "We would like to speak with you" }

def exEmailNoMatch : EmailData :=
  { fromAddr := "x@y.com", subject := "hello", body := "" }

def exEmailOfferAndInterview : EmailData :=
  { fromAddr := "hr@acmecorp.com", subject := "Job offer and next steps",
    body := "Your offer letter is attached; please share your availability." }

def exAppPending : Application :=
  { id := 1, jobId := 0, status := ApplicationStatus.pending, appliedAt := none,
    notes := none, lastActivityAt := 10, createdAt := 10, updatedAt := 10 }

def exStorePending : Store :=
  { jobs := [exJobAcme], applications := [exAppPending], emailThreads := [], resumes := [],
    history := [], nextId := 2 }

/-- The claim's example sequence pending → submitted → interview → rejected. -/
def exOpsLifecycle : List UpdateOp :=
  [{ id := 1, status := ApplicationStatus.submitted, notes := none, now := 100 },
   { id := 1, status := ApplicationStatus.interview, notes := none, now := 200 },
   { id := 1, status := ApplicationStatus.rejected, notes := none, now := 300 }]

def exResumeOps : List ResumeOp :=
  [ResumeOp.create "a" true 1, ResumeOp.create "b" true 2, ResumeOp.create "c" false 3,
   ResumeOp.setDefault 0, ResumeOp.setDefault 99]

def exStoreResumes : Store :=
  { jobs := [], applications := [], emailThreads := [],
    resumes := [{ id := 0, name := "a", is_default := true, createdAt := 1, updatedAt := 1 },
                { id := 1, name := "b", is_default := false, createdAt := 2, updatedAt := 2 }],
    history := [], nextId := 2 }

/-- Store falsifying C8's denominator: one application in interview and
one submitted, but no Job has status "applied". -/
def exStoreRate : Store :=
  { jobs := [],
    applications :=
      [{ id := 0, jobId := 5, status := ApplicationStatus.interview, appliedAt := some 10,
         notes := none, lastActivityAt := 10, createdAt := 10, updatedAt := 10 },
       { id := 1, jobId := 6, status := ApplicationStatus.submitted, appliedAt := some 20,
         notes := none, lastActivityAt := 20, createdAt := 20, updatedAt := 20 }],
    emailThreads := [], resumes := [], history := [], nextId := 2 }

/-- Timeline example: three jobs discovered on 1970-01-01, two
applications submitted on 1970-01-02. -/
def exStoreTimeline : Store :=
  { jobs := [{ id := 0, company := "a", title := "t", status := JobStatus.new, discoveredAt := 0 },
             { id := 1, company := "b", title := "t", status := JobStatus.new, discoveredAt := 1000 },
             { id := 2, company := "c", title := "t", status := JobStatus.new, discoveredAt := 2000 }],
    applications :=
      [{ id := 3, jobId := 0, status := ApplicationStatus.submitted, appliedAt := some 86400000,
         notes := none, lastActivityAt := 0, createdAt := 0, updatedAt := 0 },
       { id := 4, jobId := 1, status := ApplicationStatus.submitted, appliedAt := some 86400001,
         notes := none, lastActivityAt := 0, createdAt := 0, updatedAt := 0 }],
    emailThreads := [], resumes := [], history := [], nextId := 5 }

/-- Store falsifying C3's candidate-set sentence: 101 submitted
applications; the one with the oldest `updated_at` (the only one whose
Job's company occurs in the email) falls outside the 100-row limit. -/
def exStoreLimit : Store :=
  { jobs := [{ id := 0, company := "aaaa", title := "t", status := JobStatus.applied,
               discoveredAt := 0 },
             { id := 1, company := "targetco", title := "t", status := JobStatus.applied,
               discoveredAt := 0 }],
    applications := (List.range 101).map (fun i =>
      { id := i + 10, jobId := if i = 100 then 1 else 0, status := ApplicationStatus.submitted,
        appliedAt := some 0, notes := none, lastActivityAt := 0, createdAt := 0,
        updatedAt := 1000 - (i : Int) }),
    emailThreads := [], resumes := [], history := [], nextId := 200 }

def exEmailTargetco : EmailData :=
  { fromAddr := "hr@targetco.com", subject := "hi", body := "" }

/-! ## Theorems -/

/-- C9: for every id that names no existing Application,
`updateApplicationStatus` is a silent no-op: it raises no error (total
function), changes no stored row and appends no history record — the
store is returned unchanged. -/
theorem updateApplicationStatus_unknown_noop (s : Store) (id : Nat)
    (status : ApplicationStatus) (notes : Option String) (now : Int)
    (h : ∀ a ∈ s.applications, a.id ≠ id) :
    updateApplicationStatus s id status notes now = s := by
  have hfind : getApplication s id = none := by
    unfold getApplication
    rw [List.find?_eq_none]
    intro a ha
    simpa using h a ha
  unfold updateApplicationStatus
  rw [hfind]

/-- Witness for C9 at a concrete store and unknown id. -/
theorem updateApplicationStatus_unknown_noop_witness :
    updateApplicationStatus exStorePending 99 ApplicationStatus.submitted none 5 = exStorePending :=
  updateApplicationStatus_unknown_noop exStorePending 99 ApplicationStatus.submitted none 5
    (by decide)

/-- C10: for every id that names no existing Resume, `setDefaultResume`
clears every resume's default flag and sets none, so afterwards zero
resumes are default. -/
theorem setDefaultResume_unknown_clears (s : Store) (id : Nat)
    (h : ∀ r ∈ s.resumes, r.id ≠ id) :
    (setDefaultResume s id).resumes = s.resumes.map (fun r => { r with is_default := false }) ∧
    defaultCount (setDefaultResume s id) = 0 := by
  have h1 : (setDefaultResume s id).resumes =
      s.resumes.map (fun r => { r with is_default := false }) := by
    unfold setDefaultResume
    simp only [List.map_map]
    apply List.map_congr_left
    intro r hr
    simp [Function.comp, h r hr]
  refine ⟨h1, ?_⟩
  unfold defaultCount
  rw [h1, List.filter_map]
  simp

/-- Witness for C10: the previously default resume loses its flag even
though the requested id does not exist. -/
theorem setDefaultResume_unknown_clears_witness :
    (setDefaultResume exStoreResumes 99).resumes =
      exStoreResumes.resumes.map (fun r => { r with is_default := false }) ∧
    defaultCount (setDefaultResume exStoreResumes 99) = 0 :=
  setDefaultResume_unknown_clears exStoreResumes 99 (by decide)

/-- C5: an `updateApplicationStatus` call whose id names an existing
Application appends exactly one history record, whose `old_status` is
the Application's status immediately before the call and whose
`new_status` is the requested status; every other store operation
leaves the history unchanged. -/
theorem statusChange_appends_one_history (s : Store) (id : Nat) (status : ApplicationStatus)
    (notes : Option String) (now : Int) (app : Application)
    (h : getApplication s id = some app) :
    (updateApplicationStatus s id status notes now).history =
      s.history ++ [{ id := s.nextId, applicationId := id, old_status := app.status,
                      new_status := status, changedAt := now, notes := notes }] ∧
    (∀ company title description now2,
      (createJob s company title description now2).history = s.history) ∧
    (∀ jobId notes2 now2, (createApplication s jobId notes2 now2).history = s.history) ∧
    (∀ jid jst, (updateJobStatus s jid jst).history = s.history) ∧
    (∀ jid u, (updateJob s jid u).history = s.history) ∧
    (∀ name isDefault now2, (createResume s name isDefault now2).history = s.history) ∧
    (∀ rid, (setDefaultResume s rid).history = s.history) ∧
    (∀ rid, (deleteResume s rid).history = s.history) ∧
    (∀ aid g subj fr now2, (createEmailThread s aid g subj fr now2).history = s.history) ∧
    (∀ tid u, (updateEmailThread s tid u).history = s.history) := by
  refine ⟨?_, fun _ _ _ _ => rfl, fun _ _ _ => rfl, fun _ _ => rfl, ?_, fun _ _ _ => rfl,
    fun _ => rfl, fun _ => rfl, fun _ _ _ _ _ => rfl, ?_⟩
  · unfold updateApplicationStatus
    rw [h]
  · intro jid u
    unfold updateJob
    split <;> rfl
  · intro tid u
    unfold updateEmailThread
    split <;> rfl

/-- Witness for C5: submitting the pending example application appends
the single history record (pending, submitted). -/
theorem statusChange_appends_one_history_witness :
    (updateApplicationStatus exStorePending 1 ApplicationStatus.submitted none 100).history =
      exStorePending.history ++
        [{ id := 2, applicationId := 1, old_status := ApplicationStatus.pending,
           new_status := ApplicationStatus.submitted, changedAt := 100, notes := none }] :=
  (statusChange_appends_one_history exStorePending 1 ApplicationStatus.submitted none 100
    exAppPending (by decide)).1

/-- C4: classification scans the lower-cased subject+body against the
four fixed keyword sets by substring match in strict priority order:
offer if any offer keyword occurs, else interview, else rejection, else
generic — priority breaks ties. -/
theorem classifyEmailResponse_priority (email : EmailData) :
    ((∃ kw ∈ OFFER_KEYWORDS, strIncludes (emailContent email) kw = true) →
      classifyEmailResponse email = EmailResponseType.offer) ∧
    (¬(∃ kw ∈ OFFER_KEYWORDS, strIncludes (emailContent email) kw = true) →
      (∃ kw ∈ INTERVIEW_KEYWORDS, strIncludes (emailContent email) kw = true) →
      classifyEmailResponse email = EmailResponseType.interview) ∧
    (¬(∃ kw ∈ OFFER_KEYWORDS, strIncludes (emailContent email) kw = true) →
      ¬(∃ kw ∈ INTERVIEW_KEYWORDS, strIncludes (emailContent email) kw = true) →
      (∃ kw ∈ REJECTION_KEYWORDS, strIncludes (emailContent email) kw = true) →
      classifyEmailResponse email = EmailResponseType.rejection) ∧
    (¬(∃ kw ∈ OFFER_KEYWORDS, strIncludes (emailContent email) kw = true) →
      ¬(∃ kw ∈ INTERVIEW_KEYWORDS, strIncludes (emailContent email) kw = true) →
      ¬(∃ kw ∈ REJECTION_KEYWORDS, strIncludes (emailContent email) kw = true) →
      classifyEmailResponse email = EmailResponseType.generic) := by
  unfold classifyEmailResponse
  split_ifs with h1 h2 h3
  · exact ⟨fun _ => rfl,
      fun hno _ => absurd (List.any_eq_true.mp h1) hno,
      fun hno _ _ => absurd (List.any_eq_true.mp h1) hno,
      fun hno _ _ => absurd (List.any_eq_true.mp h1) hno⟩
  · exact ⟨fun ho => absurd (List.any_eq_true.mpr ho) h1,
      fun _ _ => rfl,
      fun _ hni _ => absurd (List.any_eq_true.mp h2) hni,
      fun _ hni _ => absurd (List.any_eq_true.mp h2) hni⟩
  · exact ⟨fun ho => absurd (List.any_eq_true.mpr ho) h1,
      fun _ hi => absurd (List.any_eq_true.mpr hi) h2,
      fun _ _ _ => rfl,
      fun _ _ hnr => absurd (List.any_eq_true.mp h3) hnr⟩
  · exact ⟨fun ho => absurd (List.any_eq_true.mpr ho) h1,
      fun _ hi => absurd (List.any_eq_true.mpr hi) h2,
      fun _ _ hr => absurd (List.any_eq_true.mpr hr) h3,
      fun _ _ _ => rfl⟩

/-- C8 counterexample: in a store with one interview-status and one
submitted-status Application but no Job with status "applied", the code
reports no response rate at all, while the claim's formula
(interviews+offers+rejections)/submitted demands 100%. -/
theorem responseRate_denominator_cex :
    reportedResponseRate exStoreRate = none ∧ claimResponseRate exStoreRate = some 100 := by
  constructor
  · rfl
  · have hs : (exStoreRate.applications.filter
        (fun a => decide (a.status = ApplicationStatus.submitted))).length = 1 := by decide
    have hi : (getStats exStoreRate).interviewsScheduled = 1 := by decide
    have ho : (getStats exStoreRate).offersReceived = 0 := by decide
    have hr : (getStats exStoreRate).rejections = 0 := by decide
    unfold claimResponseRate
    simp only [hs, hi, ho, hr]
    norm_num

/-- C8 (amended): the reported response rate's denominator is the count
of Jobs with status "applied" (the figure the report labels
"Applications Submitted"), not the count of submitted Applications; the
numerator is interviews + offers + rejections over Applications, the
result is scaled to percent, and no rate is computed when the
denominator is zero. -/
theorem reportedResponseRate_spec (s : Store) :
    ((getStats s).appliedJobs =
      (s.jobs.filter (fun j => decide (j.status = JobStatus.applied))).length) ∧
    ((getStats s).appliedJobs = 0 → reportedResponseRate s = none) ∧
    (0 < (getStats s).appliedJobs →
      reportedResponseRate s =
        some ((((getStats s).interviewsScheduled + (getStats s).offersReceived +
          (getStats s).rejections : ℚ) / ((getStats s).appliedJobs : ℚ)) * 100)) := by
  refine ⟨rfl, ?_, ?_⟩
  · intro h
    unfold reportedResponseRate formatStatsResponseRate
    rw [h]
    simp
  · intro h
    unfold reportedResponseRate formatStatsResponseRate
    rw [if_pos h]

/-- A status update never changes the number of application rows. -/
theorem updateApplicationStatus_length (s : Store) (id : Nat) (st : ApplicationStatus)
    (notes : Option String) (now : Int) :
    (updateApplicationStatus s id st notes now).applications.length = s.applications.length := by
  unfold updateApplicationStatus
  cases h : getApplication s id <;> simp

/-- Row-level effect of `updateApplicationStatus` at a fixed position:
the row is rewritten by `applyStatusUpdate` exactly when its id is the
targeted one. -/
theorem updateApplicationStatus_row (s : Store) (id : Nat) (st : ApplicationStatus)
    (notes : Option String) (now : Int) (i : Nat) (a : Application)
    (ha : s.applications[i]? = some a) :
    (updateApplicationStatus s id st notes now).applications[i]? =
      some (if a.id = id then applyStatusUpdate st now a else a) := by
  unfold updateApplicationStatus
  cases h : getApplication s id with
  | none =>
    have hmem : a ∈ s.applications := List.getElem?_mem ha
    have hne : a.id ≠ id := by
      unfold getApplication at h
      rw [List.find?_eq_none] at h
      simpa using h a hmem
    simpa [hne] using ha
  | some app =>
    simp only
    rw [List.getElem?_map, ha]
    rfl

/-- C2: `applied_at` is written exactly once.  Along any sequence of
`updateApplicationStatus` calls, a row whose `applied_at` is already
set keeps its original value un-overwritten, and a row starting with
`applied_at = NULL` ends with the timestamp of the first call of the
sequence that sets its status to "submitted" (and stays NULL when there
is no such call). -/
theorem appliedAt_set_once (s : Store) (ops : List UpdateOp) (i : Nat) (a : Application)
    (ha : s.applications[i]? = some a) :
    (runUpdates s ops).applications.length = s.applications.length ∧
    (∀ t, a.appliedAt = some t →
      ∃ a', (runUpdates s ops).applications[i]? = some a' ∧ a'.appliedAt = some t) ∧
    (a.appliedAt = none →
      ∃ a', (runUpdates s ops).applications[i]? = some a' ∧
        a'.appliedAt = firstSubmittedAt a.id ops) := by
  induction ops generalizing s a with
  | nil =>
    exact ⟨rfl, fun t ht => ⟨a, ha, ht⟩,
      fun h0 => ⟨a, ha, by simp [firstSubmittedAt, h0]⟩⟩
  | cons op rest ih =>
    have hrow := updateApplicationStatus_row s op.id op.status op.notes op.now i a ha
    have hlen := updateApplicationStatus_length s op.id op.status op.notes op.now
    obtain ⟨L, P, N⟩ :=
      ih (updateApplicationStatus s op.id op.status op.notes op.now)
        (if a.id = op.id then applyStatusUpdate op.status op.now a else a) hrow
    refine ⟨L.trans hlen, ?_, ?_⟩
    · intro t ht
      refine P t ?_
      by_cases hid : a.id = op.id
      · simp [hid, applyStatusUpdate, ht]
      · simp [hid, ht]
    · intro h0
      by_cases hid : a.id = op.id
      · by_cases hsub : op.status = ApplicationStatus.submitted
        · obtain ⟨a', hgo, hval⟩ := P op.now (by simp [hid, applyStatusUpdate, h0, hsub])
          refine ⟨a', hgo, ?_⟩
          rw [hval]
          unfold firstSubmittedAt
          rw [List.find?_cons_of_pos _ (by simp [hid, hsub])]
          rfl
        · obtain ⟨a', hgo, hval⟩ := N (by simp [hid, applyStatusUpdate, h0, hsub])
          refine ⟨a', hgo, ?_⟩
          rw [hval]
          have hid2 : (if a.id = op.id then applyStatusUpdate op.status op.now a else a).id = a.id := by
            simp [hid, applyStatusUpdate]
          rw [hid2]
          unfold firstSubmittedAt
          rw [List.find?_cons_of_neg _ (by simp [hsub])]
      · obtain ⟨a', hgo, hval⟩ := N (by simp [hid, h0])
        refine ⟨a', hgo, ?_⟩
        rw [hval]
        have hid2 : (if a.id = op.id then applyStatusUpdate op.status op.now a else a).id = a.id := by
          simp [hid]
        rw [hid2]
        unfold firstSubmittedAt
        rw [List.find?_cons_of_neg _ (by simp; intro heq; exact absurd heq.symm hid)]

/-- Witness for C2: the claim's lifecycle pending → submitted(100) →
interview(200) → rejected(300) leaves the original submission timestamp
in place. -/
theorem appliedAt_set_once_witness :
    ∃ a', (runUpdates exStorePending exOpsLifecycle).applications[0]? = some a' ∧
      a'.appliedAt = some 100 := by
  obtain ⟨a', hgo, hval⟩ :=
    (appliedAt_set_once exStorePending exOpsLifecycle 0 exAppPending (by decide)).2.2 (by decide)
  exact ⟨a', hgo, by rw [hval]; decide⟩

/-- At most one element of a list can satisfy an equation on a key the
list is duplicate-free in. -/
theorem length_filter_key_le_one (l : List Resume) (b : Nat)
    (h : (l.map (fun r => r.id)).Nodup) :
    (l.filter (fun x => decide (x.id = b))).length ≤ 1 := by
  induction l with
  | nil => simp
  | cons x t ih =>
    rw [List.map_cons, List.nodup_cons] at h
    by_cases hx : x.id = b
    · have ht : t.filter (fun y => decide (y.id = b)) = [] := by
        rw [List.filter_eq_nil_iff]
        intro y hy
        simp only [decide_eq_true_eq]
        intro hyb
        exact h.1 (by rw [hx, ← hyb]; exact List.mem_map_of_mem _ hy)
      simp [List.filter_cons, hx, ht]
    · simp only [List.filter_cons, hx, decide_eq_true_eq, if_neg]
      simpa using ih h.2

/-- `createResume` appends one row with the fresh id and bumps the
counter. -/
theorem createResume_ids (s : Store) (name : String) (d : Bool) (now : Int) :
    (createResume s name d now).resumes.map (fun r => r.id) =
      s.resumes.map (fun r => r.id) ++ [s.nextId] ∧
    (createResume s name d now).nextId = s.nextId + 1 := by
  unfold createResume
  cases d <;> simp [List.map_map, Function.comp]

/-- `setDefaultResume` changes no row id and no counter. -/
theorem setDefaultResume_ids (s : Store) (id : Nat) :
    (setDefaultResume s id).resumes.map (fun r => r.id) = s.resumes.map (fun r => r.id) ∧
    (setDefaultResume s id).nextId = s.nextId := by
  refine ⟨?_, rfl⟩
  unfold setDefaultResume
  simp only [List.map_map]
  apply List.map_congr_left
  intro r _
  by_cases h : r.id = id <;> simp [Function.comp, h]

/-- After `createResume` at most one default remains, given at most one
before. -/
theorem createResume_defaultCount (s : Store) (name : String) (d : Bool) (now : Int)
    (hcount : defaultCount s ≤ 1) :
    defaultCount (createResume s name d now) ≤ 1 := by
  unfold createResume defaultCount
  cases d
  · simpa [List.filter_append, defaultCount] using hcount
  · simp [List.filter_append, List.filter_map, Function.comp]

/-- After `setDefaultResume` at most one default remains: all are
cleared and only rows carrying the requested id are re-flagged. -/
theorem setDefaultResume_defaultCount (s : Store) (id : Nat)
    (hids : (s.resumes.map (fun r => r.id)).Nodup) :
    defaultCount (setDefaultResume s id) ≤ 1 := by
  unfold setDefaultResume defaultCount
  simp only [List.map_map, List.filter_map, List.length_map]
  have hcong : ∀ r ∈ s.resumes,
      ((fun r => r.is_default) ∘
        ((fun r => if r.id = id then { r with is_default := true } else r) ∘
          (fun r => { r with is_default := false }))) r = decide (r.id = id) := by
    intro r _
    by_cases h : r.id = id <;> simp [Function.comp, h]
  rw [List.filter_congr hcong]
  exact length_filter_key_le_one s.resumes id hids

/-- C6: starting from a store whose resumes have pairwise-distinct,
counter-fresh ids and at most one default, any sequence of
`createResume` and `setDefaultResume` calls leaves at most one (i.e.
exactly zero or one) resume with `is_default = true`, because each
default-setting mutation first clears all defaults. -/
theorem resumeDefault_invariant (ops : List ResumeOp) (s : Store)
    (hcount : defaultCount s ≤ 1)
    (hids : (s.resumes.map (fun r => r.id)).Nodup)
    (hfresh : ∀ x ∈ s.resumes.map (fun r => r.id), x < s.nextId) :
    defaultCount (ops.foldl applyResumeOp s) ≤ 1 := by
  induction ops generalizing s with
  | nil => simpa using hcount
  | cons op rest ih =>
    rw [List.foldl_cons]
    cases op with
    | create name d now =>
      simp only [applyResumeOp]
      apply ih
      · exact createResume_defaultCount s name d now hcount
      · rw [(createResume_ids s name d now).1]
        rw [List.nodup_append]
        refine ⟨hids, List.nodup_singleton _, ?_⟩
        intro x hx hx1
        rw [List.mem_singleton] at hx1
        exact absurd (hx1 ▸ hfresh x hx) (lt_irrefl s.nextId)
      · intro x hx
        rw [(createResume_ids s name d now).1] at hx
        rw [(createResume_ids s name d now).2]
        rcases List.mem_append.mp hx with hx | hx
        · exact Nat.lt_succ_of_lt (hfresh x hx)
        · rw [List.mem_singleton] at hx
          exact hx ▸ Nat.lt_succ_self _
    | setDefault id =>
      simp only [applyResumeOp]
      apply ih
      · exact setDefaultResume_defaultCount s id hids
      · rw [(setDefaultResume_ids s id).1]
        exact hids
      · intro x hx
        rw [(setDefaultResume_ids s id).1] at hx
        rw [(setDefaultResume_ids s id).2]
        exact hfresh x hx

/-- Witness for C6: a concrete sequence of creates and set-defaults
(including a set-default on an unknown id) from the empty store. -/
theorem resumeDefault_invariant_witness :
    defaultCount (exResumeOps.foldl applyResumeOp emptyStore) ≤ 1 :=
  resumeDefault_invariant exResumeOps emptyStore (by decide) (by decide) (by decide)

/-- The thread upsert never touches the applications table. -/
theorem upsertEmailThread_applications (s1 : Store) (application : MatchResult)
    (email : EmailData) (responseType : EmailResponseType) (now : Int) :
    (upsertEmailThread s1 application email responseType now).applications = s1.applications := by
  unfold upsertEmailThread
  cases email.gmailThreadId.bind (fun gid => getEmailThreadByGmailId s1 gid) with
  | none => rfl
  | some t =>
    simp only
    unfold updateEmailThread
    split <;> rfl

/-- The thread upsert never touches the history table. -/
theorem upsertEmailThread_history (s1 : Store) (application : MatchResult)
    (email : EmailData) (responseType : EmailResponseType) (now : Int) :
    (upsertEmailThread s1 application email responseType now).history = s1.history := by
  unfold upsertEmailThread
  cases email.gmailThreadId.bind (fun gid => getEmailThreadByGmailId s1 gid) with
  | none => rfl
  | some t =>
    simp only
    unfold updateEmailThread
    split <;> rfl

/-- Unfolding of `processEmailNotification` on a matched email. -/
theorem processEmail_some (s : Store) (email : EmailData) (now : Int) (m : MatchResult)
    (hm : matchEmailToApplication s email = some m) :
    processEmailNotification s email now =
      upsertEmailThread
        (match responseTypeToStatus (classifyEmailResponse email) m.currentStatus with
         | some ns =>
           if ns ≠ m.currentStatus then
             updateApplicationStatus s m.applicationId ns
               (some ("Email response classified as: " ++ (classifyEmailResponse email).text)) now
           else s
         | none => s) m email (classifyEmailResponse email) now := by
  unfold processEmailNotification
  rw [hm]

/-- `find?` on an id key commutes with an id-preserving row rewrite. -/
theorem find?_map_comm (l : List Application) (f : Application → Application)
    (p : Application → Bool) (hf : ∀ a, p (f a) = p a) :
    (l.map f).find? p = (l.find? p).map f := by
  induction l with
  | nil => rfl
  | cons a t ih =>
    rw [List.map_cons]
    cases hpa : p a with
    | true =>
      rw [List.find?_cons_of_pos _ (by rw [hf]; exact hpa), List.find?_cons_of_pos _ hpa]
      rfl
    | false =>
      rw [List.find?_cons_of_neg _ (by rw [hf, hpa]; simp),
        List.find?_cons_of_neg _ (by rw [hpa]; simp), ih]

/-- With duplicate-free ids, looking a member row up by its id finds
exactly that row. -/
theorem find?_id_of_nodup (l : List Application)
    (hnodup : (l.map (fun a => a.id)).Nodup) (a : Application) (ha : a ∈ l) :
    l.find? (fun x => decide (x.id = a.id)) = some a := by
  induction l with
  | nil => cases ha
  | cons b t ih =>
    rw [List.map_cons, List.nodup_cons] at hnodup
    rcases List.mem_cons.mp ha with rfl | hat
    · rw [List.find?_cons_of_pos _ (by simp)]
    · have hne : b.id ≠ a.id := by
        intro he
        exact hnodup.1 (he ▸ List.mem_map_of_mem _ hat)
      rw [List.find?_cons_of_neg _ (by simp [hne])]
      exact ih hnodup.2 hat

/-- Members of a filtered application listing are stored rows with the
requested status. -/
theorem listApplications_mem (s : Store) (st : ApplicationStatus) (lim off : Nat)
    (a : Application) (h : a ∈ listApplications s (some st) lim off) :
    a ∈ s.applications ∧ a.status = st := by
  unfold listApplications at h
  simp only at h
  have h1 : a ∈ sortByUpdatedAtDesc (s.applications.filter (fun x => decide (x.status = st))) :=
    List.mem_of_mem_drop (List.mem_of_mem_take h)
  have h2 : a ∈ s.applications.filter (fun x => decide (x.status = st)) :=
    (List.perm_insertionSort _ _).mem_iff.mp h1
  have h3 := List.mem_filter.mp h2
  exact ⟨h3.1, by simpa using h3.2⟩

/-- A successful `findMatch` returns the fields of one of the scanned
candidates. -/
theorem findMatch_mem (s : Store) (email : EmailData) (l : List Application) (m : MatchResult)
    (h : findMatch s email l = some m) :
    ∃ app ∈ l, app.id = m.applicationId ∧ app.jobId = m.jobId ∧
      app.status = m.currentStatus := by
  induction l with
  | nil => simp [findMatch] at h
  | cons app rest ih =>
    cases hj : getJob s app.jobId with
    | none =>
      rw [findMatch, hj] at h
      obtain ⟨b, hb, hb2⟩ := ih h
      exact ⟨b, List.mem_cons_of_mem _ hb, hb2⟩
    | some job =>
      rw [findMatch, hj] at h
      simp only at h
      by_cases hmatch : emailMatchesJob email job = true
      · rw [if_pos hmatch] at h
        have := Option.some.injEq _ _ ▸ h
        rw [Option.some_inj] at h
        subst h
        exact ⟨app, List.mem_cons_self _ _, rfl, rfl, rfl⟩
      · rw [if_neg hmatch] at h
        obtain ⟨b, hb, hb2⟩ := ih h
        exact ⟨b, List.mem_cons_of_mem _ hb, hb2⟩

/-- A match names a stored candidate row: its id, job and status come
from an application whose status is submitted or interview. -/
theorem matchEmail_candidate (s : Store) (email : EmailData) (m : MatchResult)
    (hm : matchEmailToApplication s email = some m) :
    ∃ app ∈ s.applications, app.id = m.applicationId ∧ app.jobId = m.jobId ∧
      app.status = m.currentStatus ∧
      (app.status = ApplicationStatus.submitted ∨ app.status = ApplicationStatus.interview) := by
  unfold matchEmailToApplication at hm
  simp only at hm
  obtain ⟨app, hmem, h1, h2, h3⟩ := findMatch_mem _ _ _ _ hm
  rcases List.mem_append.mp hmem with hc | hc
  · obtain ⟨hmem', hst⟩ := listApplications_mem _ _ _ _ _ hc
    exact ⟨app, hmem', h1, h2, h3, Or.inl hst⟩
  · obtain ⟨hmem', hst⟩ := listApplications_mem _ _ _ _ _ hc
    exact ⟨app, hmem', h1, h2, h3, Or.inr hst⟩

/-- The claim's transition table agrees with `responseTypeToStatus`
completed by "no change". -/
theorem specTransition_getD (ty : EmailResponseType) (cur : ApplicationStatus) :
    specTransition ty cur = (responseTypeToStatus ty cur).getD cur := by
  cases ty with
  | rejection => rfl
  | offer => rfl
  | interview =>
    by_cases h1 : cur = ApplicationStatus.interview <;>
      by_cases h2 : cur = ApplicationStatus.offer <;>
        simp [specTransition, responseTypeToStatus, h1, h2]
  | generic =>
    by_cases h : cur = ApplicationStatus.submitted <;>
      simp [specTransition, responseTypeToStatus, h]

/-- C1: for every matched inbound email the engine applies the
transition policy to the matched Application — offer sets offer,
interview sets interview unless the current status is interview or
offer, rejection sets rejected, generic sets viewed only from
submitted — a transition is persisted (one history record) only when it
changes the current status, and an Application whose status is offer is
never moved off offer by the processing. -/
theorem emailTransitionPolicy (s : Store) (email : EmailData) (now : Int) (m : MatchResult)
    (hm : matchEmailToApplication s email = some m)
    (hnodup : (s.applications.map (fun a => a.id)).Nodup) :
    (((processEmailNotification s email now).applications.find?
        (fun a => decide (a.id = m.applicationId))).map (fun a => a.status) =
      some (specTransition (classifyEmailResponse email) m.currentStatus)) ∧
    (specTransition (classifyEmailResponse email) m.currentStatus = m.currentStatus →
      (processEmailNotification s email now).applications = s.applications ∧
      (processEmailNotification s email now).history = s.history) ∧
    (specTransition (classifyEmailResponse email) m.currentStatus ≠ m.currentStatus →
      (processEmailNotification s email now).history.length = s.history.length + 1) ∧
    (∀ b ∈ s.applications, b.status = ApplicationStatus.offer →
      ((processEmailNotification s email now).applications.find?
        (fun a => decide (a.id = b.id))).map (fun a => a.status) =
        some ApplicationStatus.offer) := by
  obtain ⟨app, hmem, hid, hjid, hst, hcand⟩ := matchEmail_candidate s email m hm
  have hfind : s.applications.find? (fun x => decide (x.id = m.applicationId)) = some app := by
    rw [← hid]
    exact find?_id_of_nodup s.applications hnodup app hmem
  have hP := processEmail_some s email now m hm
  cases hresp : responseTypeToStatus (classifyEmailResponse email) m.currentStatus with
  | none =>
    have hspec : specTransition (classifyEmailResponse email) m.currentStatus =
        m.currentStatus := by
      rw [specTransition_getD, hresp]
      rfl
    have hA : (processEmailNotification s email now).applications = s.applications := by
      rw [hP, hresp]
      exact upsertEmailThread_applications _ _ _ _ _
    have hH : (processEmailNotification s email now).history = s.history := by
      rw [hP, hresp]
      exact upsertEmailThread_history _ _ _ _ _
    refine ⟨?_, fun _ => ⟨hA, hH⟩, fun hne => absurd hspec hne, ?_⟩
    · rw [hA, hfind, hspec]
      simp [hst]
    · intro b hb hboff
      rw [hA, show s.applications.find? (fun x => decide (x.id = b.id)) = some b from
        find?_id_of_nodup s.applications hnodup b hb]
      simp [hboff]
  | some ns =>
    by_cases hne : ns = m.currentStatus
    · have hspec : specTransition (classifyEmailResponse email) m.currentStatus =
          m.currentStatus := by
        rw [specTransition_getD, hresp]
        simp [hne]
      have hP3 : processEmailNotification s email now =
          upsertEmailThread s m email (classifyEmailResponse email) now := by
        rw [hP, hresp]
        simp only
        rw [if_neg (by simp [hne])]
      have hA : (processEmailNotification s email now).applications = s.applications := by
        rw [hP3]
        exact upsertEmailThread_applications _ _ _ _ _
      have hH : (processEmailNotification s email now).history = s.history := by
        rw [hP3]
        exact upsertEmailThread_history _ _ _ _ _
      refine ⟨?_, fun _ => ⟨hA, hH⟩, fun hne2 => absurd hspec hne2, ?_⟩
      · rw [hA, hfind, hspec]
        simp [hst]
      · intro b hb hboff
        rw [hA, show s.applications.find? (fun x => decide (x.id = b.id)) = some b from
          find?_id_of_nodup s.applications hnodup b hb]
        simp [hboff]
    · have hspec : specTransition (classifyEmailResponse email) m.currentStatus = ns := by
        rw [specTransition_getD, hresp]
        rfl
      have hP3 : processEmailNotification s email now =
          upsertEmailThread
            (updateApplicationStatus s m.applicationId ns
              (some ("Email response classified as: " ++ (classifyEmailResponse email).text)) now)
            m email (classifyEmailResponse email) now := by
        rw [hP, hresp]
        simp only
        rw [if_pos hne]
      have hfid : ∀ a : Application,
          (if a.id = m.applicationId then applyStatusUpdate ns now a else a).id = a.id := by
        intro a
        by_cases h : a.id = m.applicationId <;> simp [h, applyStatusUpdate]
      have hupd_apps : (updateApplicationStatus s m.applicationId ns
            (some ("Email response classified as: " ++ (classifyEmailResponse email).text))
            now).applications =
          s.applications.map (fun a =>
            if a.id = m.applicationId then applyStatusUpdate ns now a else a) := by
        unfold updateApplicationStatus
        rw [show getApplication s m.applicationId = some app from hfind]
      have hA : (processEmailNotification s email now).applications =
          s.applications.map (fun a =>
            if a.id = m.applicationId then applyStatusUpdate ns now a else a) := by
        rw [hP3, upsertEmailThread_applications, hupd_apps]
      have hH : (processEmailNotification s email now).history.length =
          s.history.length + 1 := by
        rw [hP3, upsertEmailThread_history]
        unfold updateApplicationStatus
        rw [show getApplication s m.applicationId = some app from hfind]
        simp
      refine ⟨?_, fun heq => absurd (hspec.symm.trans heq) hne, fun _ => hH, ?_⟩
      · rw [hA, find?_map_comm _ _ _ (fun a => by rw [hfid a]), hfind, hspec]
        simp [hid, applyStatusUpdate]
      · intro b hb hboff
        have hbne : b.id ≠ m.applicationId := by
          intro he
          have hba : b = app :=
            List.inj_on_of_nodup_map hnodup hb hmem (by rw [he, hid])
          rw [hba] at hboff
          rcases hcand with h | h <;> rw [hboff] at h <;> exact absurd h (by decide)
        rw [hA, find?_map_comm _ _ _ (fun a => by rw [hfid a]),
          show s.applications.find? (fun x => decide (x.id = b.id)) = some b from
            find?_id_of_nodup s.applications hnodup b hb]
        simp [hbne, hboff]

/-- Witness for C1: the Acme email classifies as interview and moves
the matched submitted application to interview. -/
theorem emailTransitionPolicy_witness :
    ((processEmailNotification exStoreAcme exEmailNextSteps 500).applications.find?
      (fun a => decide (a.id = 1))).map (fun a => a.status) =
      some ApplicationStatus.interview := by
  have h := (emailTransitionPolicy exStoreAcme exEmailNextSteps 500
    { applicationId := 1, jobId := 0, currentStatus := ApplicationStatus.submitted }
    (by decide) (by decide)).1
  rw [h]
  decide

/-- The code's per-candidate test coincides with the claim's wording of
the match predicate. -/
theorem emailMatchesJob_iff (email : EmailData) (job : Job) :
    emailMatchesJob email job = true ↔ claimMatches email job := by
  unfold emailMatchesJob claimMatches
  cases hd : senderDomainOf (lowerStr email.fromAddr) with
  | none =>
    simp only [hd, Bool.or_eq_true, List.any_eq_true, Bool.and_eq_true, decide_eq_true_eq,
      Option.map_none', Option.getD_none, Bool.or_false, Option.some.injEq,
      reduceCtorEq, false_and, exists_false, false_or]
    constructor
    · rintro (⟨w, hw, hlen, hin⟩ | ⟨w, hw, hlen, hin⟩)
      · exact ⟨w, hw, hlen, Or.inl hin⟩
      · exact ⟨w, hw, hlen, Or.inr hin⟩
    · rintro ⟨w, hw, hlen, hin | hin⟩
      · exact Or.inl ⟨w, hw, hlen, hin⟩
      · exact Or.inr ⟨w, hw, hlen, hin⟩
  | some d =>
    simp only [hd, Bool.or_eq_true, List.any_eq_true, Bool.and_eq_true, decide_eq_true_eq,
      Option.map_some', Option.getD_some, Option.some.injEq, exists_eq_left']
    constructor
    · rintro (⟨w, hw, hlen, hin | hin⟩ | ⟨w, hw, hlen, hin⟩)
      · exact ⟨w, hw, hlen, Or.inr (Or.inl hin)⟩
      · exact ⟨w, hw, hlen, Or.inl hin⟩
      · exact ⟨w, hw, hlen, Or.inr (Or.inr hin)⟩
    · rintro ⟨w, hw, hlen, hin | hin | hin⟩
      · exact Or.inl ⟨w, hw, hlen, Or.inr hin⟩
      · exact Or.inl ⟨w, hw, hlen, Or.inl hin⟩
      · exact Or.inr ⟨w, hw, hlen, hin⟩

/-- The candidate scan is a `find?` over the candidate list with the
claim's predicate. -/
theorem findMatch_eq_find? (s : Store) (email : EmailData) (l : List Application) :
    findMatch s email l = (l.find? (candidateMatches s email)).map
      (fun app => { applicationId := app.id, jobId := app.jobId,
                    currentStatus := app.status }) := by
  induction l with
  | nil => rfl
  | cons app rest ih =>
    cases hj : getJob s app.jobId with
    | none =>
      rw [findMatch, hj, ih, List.find?_cons_of_neg _ ?_]
      unfold candidateMatches
      rw [hj]
      simp
    | some job =>
      by_cases hmatch : emailMatchesJob email job = true
      · rw [findMatch, hj]
        dsimp only
        rw [if_pos hmatch, List.find?_cons_of_pos _ ?_]
        · rfl
        · unfold candidateMatches
          rw [hj]
          exact decide_eq_true ((emailMatchesJob_iff email job).mp hmatch)
      · rw [findMatch, hj]
        dsimp only
        rw [if_neg hmatch, ih, List.find?_cons_of_neg _ ?_]
        unfold candidateMatches
        rw [hj]
        simp only [decide_eq_true_eq]
        exact fun hc => hmatch ((emailMatchesJob_iff email job).mpr hc)

/-- C3 (amended): the candidate set is the first 100 submitted
applications (by descending `updated_at`) followed by the first 100
interview applications; a candidate with a resolvable Job matches
exactly per the claim's word predicate; the first match in iteration
order is returned; and a no-match email changes nothing. -/
theorem matchEmail_spec (s : Store) (email : EmailData) (now : Int) :
    matchEmailToApplication s email =
      ((listApplications s (some ApplicationStatus.submitted) ++
        listApplications s (some ApplicationStatus.interview)).find?
          (candidateMatches s email)).map
        (fun app => { applicationId := app.id, jobId := app.jobId,
                      currentStatus := app.status }) ∧
    (matchEmailToApplication s email = none → processEmailNotification s email now = s) := by
  constructor
  · unfold matchEmailToApplication
    exact findMatch_eq_find? s email _
  · intro hm
    unfold processEmailNotification
    rw [hm]

/-- C3 counterexample: with 101 submitted applications the code's
candidate set is capped at the 100 most recently updated, so an email
matching only the left-out application is dropped although the claim's
candidate set ("exactly the Applications with status submitted or
interview") contains a matching candidate. -/
theorem matchEmail_limit_cex :
    matchEmailToApplication exStoreLimit exEmailTargetco = none ∧
    ∃ app ∈ exStoreLimit.applications, app.status = ApplicationStatus.submitted ∧
      candidateMatches exStoreLimit exEmailTargetco app = true := by
  refine ⟨by decide, ?_⟩
  have happ : ({ id := 110, jobId := 1, status := ApplicationStatus.submitted, appliedAt := some 0, notes := none, lastActivityAt := 0, createdAt := 0, updatedAt := 900 } : Application) ∈ exStoreLimit.applications := by
    unfold exStoreLimit
    simp only
    exact List.mem_map.mpr ⟨100, List.mem_range.mpr (by decide), by decide⟩
  exact ⟨_, happ, rfl, by decide⟩

/-- The byte-lexicographic order on strings is total. -/
theorem charListLe_total : ∀ a b : List Char, charListLe a b = true ∨ charListLe b a = true := by
  intro a
  induction a with
  | nil => intro b; left; rfl
  | cons x xs ih =>
    intro b
    cases b with
    | nil => right; rfl
    | cons y ys =>
      by_cases h1 : x.toNat < y.toNat
      · left; simp [charListLe, h1]
      · by_cases h2 : y.toNat < x.toNat
        · right; simp [charListLe, h1, h2]
        · rcases ih ys with h | h
          · left; simp [charListLe, h1, h2, h]
          · right; simp [charListLe, h1, h2, h]

/-- The byte-lexicographic order on strings is transitive. -/
theorem charListLe_trans : ∀ a b c : List Char, charListLe a b = true → charListLe b c = true →
    charListLe a c = true := by
  intro a
  induction a with
  | nil => intro b c _ _; rfl
  | cons x xs ih =>
    intro b c hab hbc
    cases b with
    | nil => simp [charListLe] at hab
    | cons y ys =>
      cases c with
      | nil => simp [charListLe] at hbc
      | cons z zs =>
        simp only [charListLe] at hab hbc ⊢
        by_cases h1 : x.toNat < y.toNat
        · by_cases h2 : y.toNat < z.toNat
          · simp [Nat.lt_trans h1 h2]
          · by_cases h3 : z.toNat < y.toNat
            · simp [h2, h3] at hbc
            · have hyz : y.toNat = z.toNat :=
                Nat.le_antisymm (Nat.le_of_not_lt h3) (Nat.le_of_not_lt h2)
              simp [hyz ▸ h1]
        · by_cases h2 : y.toNat < x.toNat
          · simp [h1, h2] at hab
          · have hxy : x.toNat = y.toNat :=
              Nat.le_antisymm (Nat.le_of_not_lt h2) (Nat.le_of_not_lt h1)
            have hab2 : charListLe xs ys = true := by simpa [h1, h2] using hab
            by_cases h3 : y.toNat < z.toNat
            · simp [hxy ▸ h3]
            · by_cases h4 : z.toNat < y.toNat
              · simp [h3, h4] at hbc
              · have hyz : y.toNat = z.toNat :=
                  Nat.le_antisymm (Nat.le_of_not_lt h4) (Nat.le_of_not_lt h3)
                have hbc2 : charListLe ys zs = true := by simpa [h3, h4] using hbc
                have hxz : x.toNat = z.toNat := hxy.trans hyz
                have h5 : ¬ x.toNat < z.toNat := by omega
                have h6 : ¬ z.toNat < x.toNat := by omega
                simp [h5, h6, ih ys zs hab2 hbc2]

/-- Lookup of a key at the head of the association list. -/
theorem lookupD_cons_of_eq (p : String × Nat) (l : List (String × Nat)) (d : String)
    (h : p.1 = d) : lookupD (p :: l) d = p.2 := by
  unfold lookupD
  rw [List.find?_cons_of_pos _ (by simp [h])]
  rfl

/-- Lookup skipping a head with a different key. -/
theorem lookupD_cons_of_ne (p : String × Nat) (l : List (String × Nat)) (d : String)
    (h : ¬ p.1 = d) : lookupD (p :: l) d = lookupD l d := by
  unfold lookupD
  rw [List.find?_cons_of_neg _ (by simp [h])]

/-- A key absent from the association list looks up to the default 0. -/
theorem lookupD_of_not_mem (l : List (String × Nat)) (d : String)
    (h : d ∉ l.map Prod.fst) : lookupD l d = 0 := by
  unfold lookupD
  rw [List.find?_eq_none.mpr ?_]
  · rfl
  · intro p hp
    simp only [decide_eq_true_eq]
    intro he
    exact h (he ▸ List.mem_map_of_mem _ hp)

/-- With duplicate-free keys a member pair looks up to its own value. -/
theorem lookupD_of_mem_nodup (l : List (String × Nat)) (p : String × Nat)
    (hn : (l.map Prod.fst).Nodup) (hp : p ∈ l) : lookupD l p.1 = p.2 := by
  induction l with
  | nil => cases hp
  | cons q t ih =>
    rw [List.map_cons, List.nodup_cons] at hn
    rcases List.mem_cons.mp hp with rfl | hpt
    · exact lookupD_cons_of_eq _ _ _ rfl
    · have hne : ¬ q.1 = p.1 := by
        intro he
        exact hn.1 (he ▸ List.mem_map_of_mem _ hpt)
      rw [lookupD_cons_of_ne _ _ _ hne]
      exact ih hn.2 hpt

/-- The group-by's keys are the distinct dates of the inputs. -/
theorem groupByDate_keys (ts : List Int) :
    (groupByDate ts).map Prod.fst =
      List.insertionSort (fun a b => strLe a b = true) (ts.map dateOf).dedup := by
  unfold groupByDate
  rw [List.map_map]
  have hcomp : (Prod.fst ∘ fun d : String =>
      (d, (ts.filter (fun t => decide (dateOf t = d))).length)) = id := rfl
  rw [hcomp, List.map_id]

/-- The group-by has duplicate-free keys. -/
theorem groupByDate_keys_nodup (ts : List Int) : ((groupByDate ts).map Prod.fst).Nodup := by
  rw [groupByDate_keys]
  exact ((List.perm_insertionSort _ _).nodup_iff).mpr (List.nodup_dedup _)

/-- A date is a group-by key exactly when some input timestamp falls on
it. -/
theorem groupByDate_keys_mem (ts : List Int) (d : String) :
    d ∈ (groupByDate ts).map Prod.fst ↔ ∃ t ∈ ts, dateOf t = d := by
  rw [groupByDate_keys, (List.perm_insertionSort _ _).mem_iff, List.mem_dedup, List.mem_map]

/-- Looking a date up in the group-by yields the number of input
timestamps on that date (0 when absent). -/
theorem lookupD_groupByDate (ts : List Int) (d : String) :
    lookupD (groupByDate ts) d = (ts.filter (fun t => decide (dateOf t = d))).length := by
  by_cases hmem : d ∈ (groupByDate ts).map Prod.fst
  · obtain ⟨p, hp, hfst⟩ := List.mem_map.mp hmem
    have hform : p.2 = (ts.filter (fun t => decide (dateOf t = p.1))).length := by
      unfold groupByDate at hp
      obtain ⟨k, _, hkq⟩ := List.mem_map.mp hp
      rw [← hkq]
    have hl := lookupD_of_mem_nodup _ p (groupByDate_keys_nodup ts) hp
    rw [hfst] at hl
    rw [hl, hform, hfst]
  · rw [lookupD_of_not_mem _ _ hmem]
    have hnil : ts.filter (fun t => decide (dateOf t = d)) = [] := by
      rw [List.filter_eq_nil_iff]
      intro t ht
      simp only [decide_eq_true_eq]
      intro hdt
      exact hmem ((groupByDate_keys_mem ts d).mpr ⟨t, ht, hdt⟩)
    rw [hnil]
    rfl

/-- Characterization of the merge fold: the dates are the seed dates
followed by the unseen application dates in order, untouched entries
pass through, and every entry whose date occurs in the application
rows carries that row's counter, with the remaining fields taken from
the seed entry of the same date (or zero for a fresh date). -/
theorem mergeFold_char (ap : List (String × Nat)) :
    ∀ acc : List TimelineEntry,
      (ap.map Prod.fst).Nodup → (acc.map (fun e => e.date)).Nodup →
      ((ap.foldl mergeStep acc).map (fun e => e.date) =
        acc.map (fun e => e.date) ++
          (ap.map Prod.fst).filter
            (fun d => decide (d ∉ acc.map (fun e => e.date)))) ∧
      (∀ e ∈ ap.foldl mergeStep acc,
        (e.date ∉ ap.map Prod.fst → e ∈ acc) ∧
        (e.date ∈ ap.map Prod.fst →
          e.applicationsSubmitted = lookupD ap e.date ∧
          ((∃ e0 ∈ acc, e0.date = e.date ∧ e.jobsDiscovered = e0.jobsDiscovered ∧
              e.responsesReceived = e0.responsesReceived) ∨
            (e.date ∉ acc.map (fun e => e.date) ∧ e.jobsDiscovered = 0 ∧
              e.responsesReceived = 0)))) := by
  induction ap with
  | nil =>
    intro acc _ _
    exact ⟨by simp, fun e he => ⟨fun _ => he, fun hmem => absurd hmem (by simp)⟩⟩
  | cons p rest ih =>
    intro acc hap hacc
    rw [List.map_cons, List.nodup_cons] at hap
    obtain ⟨hp_rest, hrest_nodup⟩ := hap
    rw [List.foldl_cons]
    by_cases hin : acc.any (fun e => decide (e.date = p.1)) = true
    · -- a seed entry with this date exists: overwrite in place
      have hstep : mergeStep acc p =
          acc.map (fun e => if e.date = p.1 then { e with applicationsSubmitted := p.2 }
            else e) := by
        unfold mergeStep
        rw [if_pos hin]
      have hp_in : p.1 ∈ acc.map (fun e => e.date) := by
        rw [List.any_eq_true] at hin
        obtain ⟨e, he, hde⟩ := hin
        simp only [decide_eq_true_eq] at hde
        exact hde ▸ List.mem_map_of_mem _ he
      have hdates' : (acc.map (fun e => if e.date = p.1 then
            { e with applicationsSubmitted := p.2 } else e)).map (fun e => e.date) =
          acc.map (fun e => e.date) := by
        rw [List.map_map]
        apply List.map_congr_left
        intro e _
        by_cases h : e.date = p.1 <;> simp [h]
      rw [hstep]
      obtain ⟨ih_dates, ih_entries⟩ := ih _ hrest_nodup (by rw [hdates']; exact hacc)
      constructor
      · rw [ih_dates]
        simp only [hdates']
        congr 1
        rw [List.map_cons, List.filter_cons_of_neg (by simp [hp_in])]
      · intro e he
        obtain ⟨ihA, ihB⟩ := ih_entries e he
        constructor
        · intro hnot
          rw [List.map_cons, List.mem_cons] at hnot
          push_neg at hnot
          obtain ⟨e0, he0, hge⟩ := List.mem_map.mp (ihA hnot.2)
          by_cases h0 : e0.date = p.1
          · exfalso
            apply hnot.1
            rw [← hge]
            simp [h0]
          · rw [← hge]
            simpa [h0] using he0
        · intro hmem
          by_cases heq : e.date = p.1
          · have hnotrest : e.date ∉ rest.map Prod.fst := by rw [heq]; exact hp_rest
            obtain ⟨e0, he0, hge⟩ := List.mem_map.mp (ihA hnotrest)
            by_cases h0 : e0.date = p.1
            · refine ⟨?_, Or.inl ⟨e0, he0, by rw [h0, heq], ?_, ?_⟩⟩
              · rw [heq, lookupD_cons_of_eq _ _ _ rfl, ← hge]
                simp [h0]
              · rw [← hge]
                simp [h0]
              · rw [← hge]
                simp [h0]
            · exfalso
              apply h0
              rw [← heq, ← hge]
              simp [h0]
          · have hmem_rest : e.date ∈ rest.map Prod.fst := by
              rw [List.map_cons, List.mem_cons] at hmem
              rcases hmem with h | h
              · exact absurd h heq
              · exact h
            obtain ⟨happs, hrest_part⟩ := ihB hmem_rest
            refine ⟨?_, ?_⟩
            · rw [happs, lookupD_cons_of_ne _ _ _ (fun h => heq h.symm)]
            · rcases hrest_part with ⟨e0, he0', hdate0, hjobs0, hresp0⟩ | ⟨hnotin, hj, hr⟩
              · obtain ⟨e1, he1, hge1⟩ := List.mem_map.mp he0'
                by_cases h1 : e1.date = p.1
                · exfalso
                  apply heq
                  rw [← hdate0, ← hge1]
                  simp [h1]
                · have he0acc : e0 ∈ acc := by
                    rw [← hge1]
                    simpa [h1] using he1
                  exact Or.inl ⟨e0, he0acc, hdate0, hjobs0, hresp0⟩
              · rw [hdates'] at hnotin
                exact Or.inr ⟨hnotin, hj, hr⟩
    · -- fresh date: append a new entry
      have hstep : mergeStep acc p = acc ++
          [{ date := p.1, jobsDiscovered := 0, applicationsSubmitted := p.2,
             responsesReceived := 0 }] := by
        unfold mergeStep
        rw [if_neg hin]
      have hp_not : p.1 ∉ acc.map (fun e => e.date) := by
        intro hmem2
        apply hin
        rw [List.any_eq_true]
        obtain ⟨e, he, hde⟩ := List.mem_map.mp hmem2
        exact ⟨e, he, by simp [hde]⟩
      have hdates' : ((acc ++
          [({ date := p.1, jobsDiscovered := 0, applicationsSubmitted := p.2,
              responsesReceived := 0 } : TimelineEntry)]).map (fun e => e.date)) =
          acc.map (fun e => e.date) ++ [p.1] := by
        simp
      have hnodup' : ((acc ++
          [({ date := p.1, jobsDiscovered := 0, applicationsSubmitted := p.2,
              responsesReceived := 0 } : TimelineEntry)]).map (fun e => e.date)).Nodup := by
        rw [hdates', List.nodup_append]
        refine ⟨hacc, List.nodup_singleton _, ?_⟩
        intro x hx hx1
        rw [List.mem_singleton] at hx1
        exact hp_not (hx1 ▸ hx)
      rw [hstep]
      obtain ⟨ih_dates, ih_entries⟩ := ih _ hrest_nodup hnodup'
      constructor
      · rw [ih_dates]
        simp only [hdates']
        rw [List.map_cons, List.filter_cons_of_pos (by simp [hp_not]), List.append_assoc]
        congr 1
        rw [List.singleton_append]
        congr 1
        apply List.filter_congr
        intro d hd
        have hdne : d ≠ p.1 := fun h => hp_rest (h ▸ hd)
        simp [List.mem_append, hdne]
      · intro e he
        obtain ⟨ihA, ihB⟩ := ih_entries e he
        constructor
        · intro hnot
          rw [List.map_cons, List.mem_cons] at hnot
          push_neg at hnot
          rcases List.mem_append.mp (ihA hnot.2) with h | h
          · exact h
          · rw [List.mem_singleton] at h
            exact absurd (by rw [h]) hnot.1
        · intro hmem
          by_cases heq : e.date = p.1
          · have hnotrest : e.date ∉ rest.map Prod.fst := by rw [heq]; exact hp_rest
            rcases List.mem_append.mp (ihA hnotrest) with h | h
            · exfalso
              apply hp_not
              rw [← heq]
              exact List.mem_map_of_mem _ h
            · rw [List.mem_singleton] at h
              subst h
              exact ⟨by rw [lookupD_cons_of_eq _ _ _ rfl], Or.inr ⟨hp_not, rfl, rfl⟩⟩
          · have hmem_rest : e.date ∈ rest.map Prod.fst := by
              rw [List.map_cons, List.mem_cons] at hmem
              rcases hmem with h | h
              · exact absurd h heq
              · exact h
            obtain ⟨happs, hrest_part⟩ := ihB hmem_rest
            refine ⟨?_, ?_⟩
            · rw [happs, lookupD_cons_of_ne _ _ _ (fun h => heq h.symm)]
            · rcases hrest_part with ⟨e0, he0', hdate0, hjobs0, hresp0⟩ | ⟨hnotin, hj, hr⟩
              · rcases List.mem_append.mp he0' with h | h
                · exact Or.inl ⟨e0, h, hdate0, hjobs0, hresp0⟩
                · rw [List.mem_singleton] at h
                  exfalso
                  apply heq
                  rw [← hdate0, h]
              · rw [hdates'] at hnotin
                exact Or.inr ⟨fun hc => hnotin (List.mem_append.mpr (Or.inl hc)), hj, hr⟩

/-- Sorted-merge core of `getTimeline`: for duplicate-free group-bys the
sorted merge is ascending, has duplicate-free dates, every entry carries
the two group-by counters of its date with `responsesReceived = 0`, and
the dates are exactly the keys of either group-by. -/
theorem timeline_core (jp ap : List (String × Nat)) (tl : List TimelineEntry)
    (hjp : (jp.map Prod.fst).Nodup) (hap : (ap.map Prod.fst).Nodup)
    (htl : tl = List.insertionSort (fun a b => strLe a.date b.date = true)
      (mergeTimeline jp ap)) :
    List.Sorted (fun a b : TimelineEntry => strLe a.date b.date = true) tl ∧
    (tl.map (fun e => e.date)).Nodup ∧
    (∀ e ∈ tl, e.jobsDiscovered = lookupD jp e.date ∧
      e.applicationsSubmitted = lookupD ap e.date ∧ e.responsesReceived = 0) ∧
    (∀ d : String, d ∈ tl.map (fun e => e.date) ↔
      d ∈ jp.map Prod.fst ∨ d ∈ ap.map Prod.fst) := by
  have hbase_dates : ((jp.map (fun p => ({ date := p.1, jobsDiscovered := p.2, applicationsSubmitted := 0, responsesReceived := 0 } : TimelineEntry))).map (fun e => e.date)) = jp.map Prod.fst := by
    rw [List.map_map]
    rfl
  have hbase_nodup : ((jp.map (fun p => ({ date := p.1, jobsDiscovered := p.2, applicationsSubmitted := 0, responsesReceived := 0 } : TimelineEntry))).map (fun e => e.date)).Nodup := by
    rw [hbase_dates]
    exact hjp
  obtain ⟨hdates, hentries⟩ := mergeFold_char ap _ hap hbase_nodup
  have hperm : List.Perm tl (mergeTimeline jp ap) := by
    rw [htl]
    exact List.perm_insertionSort _ _
  refine ⟨?_, ?_, ?_, ?_⟩
  · rw [htl]
    haveI h1 : IsTotal TimelineEntry (fun a b => strLe a.date b.date = true) :=
      ⟨fun a b => charListLe_total a.date.data b.date.data⟩
    haveI h2 : IsTrans TimelineEntry (fun a b => strLe a.date b.date = true) :=
      ⟨fun a b c hab hbc => charListLe_trans a.date.data b.date.data c.date.data hab hbc⟩
    exact List.sorted_insertionSort _ _
  · have hmerged_nodup : ((mergeTimeline jp ap).map (fun e => e.date)).Nodup := by
      unfold mergeTimeline
      rw [hdates]
      simp only [hbase_dates]
      rw [List.nodup_append]
      refine ⟨hjp, hap.filter _, ?_⟩
      intro x hx hx2
      rw [List.mem_filter] at hx2
      simp only [decide_eq_true_eq] at hx2
      exact hx2.2 hx
    exact ((hperm.map (fun e => e.date)).nodup_iff).mpr hmerged_nodup
  · intro e he
    have he_m : e ∈ ap.foldl mergeStep (jp.map (fun p => ({ date := p.1, jobsDiscovered := p.2, applicationsSubmitted := 0, responsesReceived := 0 } : TimelineEntry))) := hperm.mem_iff.mp he
    obtain ⟨hA, hB⟩ := hentries e he_m
    by_cases hmem : e.date ∈ ap.map Prod.fst
    · obtain ⟨happs, hpart⟩ := hB hmem
      rcases hpart with ⟨e0, he0, hd0, hj0, hr0⟩ | ⟨hnot, hj0, hr0⟩
      · obtain ⟨p, hp, hpe⟩ := List.mem_map.mp he0
        refine ⟨?_, happs, ?_⟩
        · rw [hj0, ← hpe, ← hd0, ← hpe]
          exact (lookupD_of_mem_nodup jp p hjp hp).symm
        · rw [hr0, ← hpe]
      · refine ⟨?_, happs, hr0⟩
        rw [hj0]
        rw [hbase_dates] at hnot
        exact (lookupD_of_not_mem jp e.date hnot).symm
    · have he_b := hA hmem
      obtain ⟨p, hp, hpe⟩ := List.mem_map.mp he_b
      refine ⟨?_, ?_, ?_⟩
      · rw [← hpe]
        exact (lookupD_of_mem_nodup jp p hjp hp).symm
      · rw [lookupD_of_not_mem ap e.date hmem, ← hpe]
      · rw [← hpe]
  · intro d
    have hm : d ∈ (mergeTimeline jp ap).map (fun e => e.date) ↔
        d ∈ jp.map Prod.fst ∨ d ∈ ap.map Prod.fst := by
      unfold mergeTimeline
      rw [hdates]
      simp only [hbase_dates]
      by_cases hd : d ∈ jp.map Prod.fst <;>
        simp [List.mem_append, List.mem_filter, hd]
    exact Iff.trans ((hperm.map (fun e => e.date)).mem_iff) hm

/-- C7: `getTimeline` defaults to a 30-day window with cutoff
`now - days*24*60*60*1000`, counts jobs discovered and applications
submitted (non-null `applied_at`) independently per UTC calendar date
inside the window, merges by date key with missing counters 0 and
`responsesReceived` always 0, and returns the entries sorted ascending
by date string with one entry per date that has any activity. -/
theorem getTimeline_spec (s : Store) (now days : Int) :
    getTimeline s now = getTimeline s now 30 ∧
    List.Sorted (fun a b : TimelineEntry => strLe a.date b.date = true)
      (getTimeline s now days) ∧
    ((getTimeline s now days).map (fun e => e.date)).Nodup ∧
    (∀ e ∈ getTimeline s now days,
      e.jobsDiscovered = jobsDiscoveredOn s (now - days * 24 * 60 * 60 * 1000) e.date ∧
      e.applicationsSubmitted = appsSubmittedOn s (now - days * 24 * 60 * 60 * 1000) e.date ∧
      e.responsesReceived = 0) ∧
    (∀ d : String,
      d ∈ (getTimeline s now days).map (fun e => e.date) ↔
        ((∃ j ∈ s.jobs, now - days * 24 * 60 * 60 * 1000 ≤ j.discoveredAt ∧
            dateOf j.discoveredAt = d) ∨
          (∃ a ∈ s.applications, ∃ t, a.appliedAt = some t ∧
            now - days * 24 * 60 * 60 * 1000 ≤ t ∧ dateOf t = d))) := by
  have htl0 : getTimeline s now days =
      List.insertionSort (fun a b => strLe a.date b.date = true)
        (mergeTimeline
          (groupByDate ((s.jobs.filter
            (fun j => decide (now - days * 24 * 60 * 60 * 1000 ≤ j.discoveredAt))).map
            (fun j => j.discoveredAt)))
          (groupByDate ((s.applications.filterMap (fun a => a.appliedAt)).filter
            (fun t => decide (now - days * 24 * 60 * 60 * 1000 ≤ t))))) := rfl
  obtain ⟨hsorted, hnodup, hentries, hmem⟩ :=
    timeline_core
      (groupByDate ((s.jobs.filter
        (fun j => decide (now - days * 24 * 60 * 60 * 1000 ≤ j.discoveredAt))).map
        (fun j => j.discoveredAt)))
      (groupByDate ((s.applications.filterMap (fun a => a.appliedAt)).filter
        (fun t => decide (now - days * 24 * 60 * 60 * 1000 ≤ t))))
      (getTimeline s now days)
      (groupByDate_keys_nodup _) (groupByDate_keys_nodup _) htl0
  refine ⟨rfl, hsorted, hnodup, ?_, ?_⟩
  · intro e he
    obtain ⟨hj, ha, hr⟩ := hentries e he
    refine ⟨?_, ?_, hr⟩
    · rw [hj, lookupD_groupByDate]
      unfold jobsDiscoveredOn
      rw [List.filter_map, List.length_map]
      rfl
    · rw [ha, lookupD_groupByDate]
      unfold appsSubmittedOn
      rfl
  · intro d
    rw [hmem d, groupByDate_keys_mem, groupByDate_keys_mem]
    have hJ : (∃ t ∈ (s.jobs.filter
        (fun j => decide (now - days * 24 * 60 * 60 * 1000 ≤ j.discoveredAt))).map
          (fun j => j.discoveredAt), dateOf t = d) ↔
        (∃ j ∈ s.jobs, now - days * 24 * 60 * 60 * 1000 ≤ j.discoveredAt ∧
          dateOf j.discoveredAt = d) := by
      constructor
      · rintro ⟨t, ht, hdt⟩
        obtain ⟨j, hjm, rfl⟩ := List.mem_map.mp ht
        have hf := List.mem_filter.mp hjm
        exact ⟨j, hf.1, by simpa using hf.2, hdt⟩
      · rintro ⟨j, hjm, hw, hdt⟩
        exact ⟨j.discoveredAt,
          List.mem_map_of_mem _ (List.mem_filter.mpr ⟨hjm, by simpa using hw⟩), hdt⟩
    have hA : (∃ t ∈ (s.applications.filterMap (fun a => a.appliedAt)).filter
        (fun t => decide (now - days * 24 * 60 * 60 * 1000 ≤ t)), dateOf t = d) ↔
        (∃ a ∈ s.applications, ∃ t, a.appliedAt = some t ∧
          now - days * 24 * 60 * 60 * 1000 ≤ t ∧ dateOf t = d) := by
      constructor
      · rintro ⟨t, ht, hdt⟩
        have hf := List.mem_filter.mp ht
        obtain ⟨a, ham, hat⟩ := List.mem_filterMap.mp hf.1
        exact ⟨a, ham, t, hat, by simpa using hf.2, hdt⟩
      · rintro ⟨a, ham, t, hat, hw, hdt⟩
        exact ⟨t, List.mem_filter.mpr
          ⟨List.mem_filterMap.mpr ⟨a, ham, hat⟩, by simpa using hw⟩, hdt⟩
    rw [hJ, hA]

/-- Witness for C7 at the concrete store with three jobs discovered on
1970-01-01 and two applications submitted on 1970-01-02: two entries in
ascending date order, each with the other counter at 0. -/
theorem getTimeline_spec_witness :
    getTimeline exStoreTimeline 172800002 30 =
      [{ date := "1970-01-01", jobsDiscovered := 3, applicationsSubmitted := 0,
         responsesReceived := 0 },
       { date := "1970-01-02", jobsDiscovered := 0, applicationsSubmitted := 2,
         responsesReceived := 0 }] := by
  have h := (getTimeline_spec exStoreTimeline 172800002 30).2.2.2.1
  decide

end Jobot
